import Mathlib

/-!
# Verification of the popie string-extraction tool

Shallow embedding of the `popie` package (`analyzer.py`, `object_types.py`,
`constants.py`, `popiefile.py`, `reporter.py`) and proofs about it.

The analyzer walks a Python `ast` tree.  We embed the fragment of the
Python AST the analyzer inspects (`Name`, `Attribute`, `Constant`, `Call`,
`List`/`Tuple`, `Dict`, `BinOp`), together with the `lineno`/`col_offset`
metadata every node carries.  Python exceptions that can escape the
analyzer (`AttributeError`, `IndexError`) are modelled with `Except`.
-/

set_option maxHeartbeats 1000000

namespace Popie

/-- The `lineno` (1-based) and `col_offset` (0-based) of a Python AST node. -/
structure Pos where
  line : Nat
  col : Nat
deriving DecidableEq

/-- The value stored in an `ast.Constant` node: a `str`, or a value of any
other Python type, recorded by its type name (`value.__class__.__name__`),
which is all the analyzer ever uses of a non-string constant. -/
inductive ConstVal where
  | str (s : String)
  | other (typeName : String)
deriving DecidableEq

mutual
/-- The fragment of the Python AST that `popie.analyzer` inspects. -/
inductive Expr where
  | name (pos : Pos) (id : String)
  | attr (pos : Pos) (value : Expr) (attrName : String)
  | const (pos : Pos) (value : ConstVal)
  | call (pos : Pos) (func : Expr) (args : ExprList) (kwValues : ExprList)
  | listE (pos : Pos) (elts : ExprList)
  | tupleE (pos : Pos) (elts : ExprList)
  | dictE (pos : Pos) (keys : ExprList) (values : ExprList)
  | binOp (pos : Pos) (left : Expr) (right : Expr)
/-- A list of AST nodes (`node.args`, `elts`, ...), kept as a mutual
inductive so that the analyzer's traversal is structurally recursive. -/
inductive ExprList where
  | nil
  | cons (head : Expr) (tail : ExprList)
end

/-- The `len` of a node list. -/
def ExprList.length : ExprList → Nat
  | .nil => 0
  | .cons _ t => t.length + 1

/-- From `popie/object_types.py`: class `String` (called `PString` here because
`String` is taken by Lean): a located extracted string. -/
structure PString where
  filename : String
  line : Nat
  col : Nat
  text : String
deriving DecidableEq

/-- From `popie/object_types.py`: class `Error` (called `AError` here because the
same class is used for both errors and warnings of the analyzer). -/
structure AError where
  filename : String
  line : Nat
  col : Nat
  text : String
deriving DecidableEq

/-- A Python exception escaping the analyzer, aborting the analysis:
an `AttributeError` (attribute lookup that fails at run time) or an
`IndexError` (out-of-bounds string indexing). -/
inductive Crash where
  | attributeError (missingAttr : String)
  | indexError
deriving DecidableEq

deriving instance DecidableEq for Except

/-- The three accumulator lists of an `Analyzer` object. -/
structure St where
  errors : List AError
  warnings : List AError
  strings : List PString
deriving DecidableEq

/-- From `popie/constants.py`: `CONTEXTS = ("ctx", "itx", "utx", "gtx")`. -/
def CONTEXTS : List String := ["ctx", "itx", "utx", "gtx"]

/-- The join `", ".join(f"'{c}'" for c in CONTEXTS)`. -/
def ctxOptions : String :=
  String.intercalate ", " (CONTEXTS.map (fun c => "\x27" ++ c ++ "\x27"))

/-- Error message of `analyzer.py` line 93. -/
def badArgCountMsg (n : Nat) : String :=
  "Bad argument count (expected 2, got " ++ toString n ++ ")."

/-- Error message of `analyzer.py` lines 109-110. -/
def badFormatMsg : String :=
  "Bad \x27.format()\x27 placement in translation function (has to be outside of \x27_()\x27 call.)"

/-- Error message of `analyzer.py` line 122. -/
def badLiteralMsg : String :=
  "Bad string argument (has to be literal, not variable)."

/-- Error message of `analyzer.py` lines 134-136, quoting the offending
attribute name. -/
def inheritedCtxMsg (a : String) : String :=
  "Inherited translation context variable has to be one of " ++ ctxOptions
    ++ ", got \x27" ++ a ++ "\x27."

/-- Error message of `analyzer.py` lines 145-147, quoting the offending
context variable name. -/
def ctxNameMsg (c : String) : String :=
  "Translation context variable has to be one of " ++ ctxOptions
    ++ ", got \x27" ++ c ++ "\x27."

/-- Warning message of `analyzer.py` lines 156-157. -/
def tcDeprecatedMsg : String :=
  "Translation context variable name \x27tc\x27 is deprecated, use \x27utx\x27 instead. \x27tc\x27 may not be accepted in the future."

/-- Error message of `analyzer.py` lines 168-169. -/
def strTypeMsg (typeName : String) : String :=
  "Translation string has to be of type \x27str\x27, not \x27" ++ typeName ++ "\x27."

/-- Model of `Analyzer._check_string` (analyzer.py lines 39-61).

The source indexes `string.text[0]` with no emptiness guard, so the empty
string raises `IndexError`.  Each failing check builds its error with
`Error.from_string`, but no `from_string` method is defined anywhere in
the code base (`object_types.py` defines none), so a string that starts or
ends with a space or tab, or contains a newline, raises `AttributeError`
instead of recording an error.  The only normal outcome is `True`. -/
def checkString (s : PString) : Except Crash Bool :=
  match s.text.data with
  | [] => .error .indexError
  | c :: cs =>
    if c = ' ' ∨ c = '\t' then .error (.attributeError "from_string")
    else if (c :: cs).getLast (by simp) = ' ' ∨ (c :: cs).getLast (by simp) = '\t' then
      .error (.attributeError "from_string")
    else if '\n' ∈ c :: cs then .error (.attributeError "from_string")
    else .ok true

/-- Line 100-103 of `analyzer.py`: `getattr(node.args[1], "func", None) is
not None and getattr(node.args[1].func, "attr", "") == "format"` — only a
`Call` node has a `func` attribute, and only an `Attribute` callee has an
`attr` attribute (`getattr` with a default covers the rest). -/
def isFormatArg : Expr → Bool
  | .call _ (.attr _ _ a) _ _ => a = "format"
  | _ => false

/-- Model of `Analyzer.visit_Call`, lines 84-204: everything after the three
`_iterate` calls.  Returns the new state and `true` exactly when control
reaches the final `self.generic_visit(node)` (line 204), `false` when the
method returned early.  `f` is `node.func`, `args` is `node.args`; `fname`
is `self.filename`.

Lines 181-202 (the `node_str.__class__ is ast.Call` branch) are
unreachable: a non-`Constant` second argument was already rejected at
line 115, so they are not modelled. -/
def callChecks (fname : String) (st : St) (f : Expr) (args : ExprList) :
    Except Crash (St × Bool) :=
  match f with
  | .name fpos fid =>
    if fid ≠ "_" then .ok (st, false)
    else
      match args with
      | .cons nodeCtx (.cons nodeStr .nil) =>
        -- line 100: second argument is a call to an attribute named "format"
        if isFormatArg nodeStr then
          .ok ({ st with errors :=
            st.errors ++ [⟨fname, fpos.line, fpos.col, badFormatMsg⟩] }, false)
        else
          match nodeStr with
          | .const strPos cv =>
            -- lines 127-159: the context-argument check
            let ctxStep : Except Crash (St × Bool) :=
              match nodeCtx with
              | .attr cpos cval cattr =>
                match cval with
                | .name _ cvid =>
                  if cvid ≠ "self" ∨ cattr ∉ CONTEXTS then
                    .ok ({ st with errors := st.errors ++
                      [⟨fname, cpos.line, cpos.col, inheritedCtxMsg cattr⟩] }, false)
                  else .ok (st, true)
                | _ =>
                  -- `node_ctx.value.id` on a non-Name object
                  .error (.attributeError "id")
              | .name _ cid =>
                if cid ∉ CONTEXTS ++ ["tc"] then
                  .ok ({ st with errors := st.errors ++
                    [⟨fname, fpos.line, fpos.col, ctxNameMsg cid⟩] }, false)
                else if cid = "tc" then
                  .ok ({ st with warnings := st.warnings ++
                    [⟨fname, fpos.line, fpos.col, tcDeprecatedMsg⟩] }, true)
                else .ok (st, true)
              | _ =>
                -- `node_ctx.id` on a node that is neither Attribute nor Name
                .error (.attributeError "id")
            match ctxStep with
            | .error c => .error c
            | .ok (st1, false) => .ok (st1, false)
            | .ok (st1, true) =>
              -- lines 161-179: the plain-literal string branch
              match cv with
              | .str sval =>
                let s : PString := ⟨fname, strPos.line, strPos.col, sval⟩
                match checkString s with
                | .error c => .error c
                | .ok false => .ok (st1, false)
                | .ok true => .ok ({ st1 with strings := st1.strings ++ [s] }, true)
              | .other typeName =>
                .ok ({ st1 with errors := st1.errors ++
                  [⟨fname, fpos.line, fpos.col, strTypeMsg typeName⟩] }, false)
          | _ =>
            -- line 115: second argument is not a Constant
            .ok ({ st with errors :=
              st.errors ++ [⟨fname, fpos.line, fpos.col, badLiteralMsg⟩] }, false)
      | _ =>
        -- line 88: wrong arity
        .ok ({ st with errors := st.errors ++
          [⟨fname, fpos.line, fpos.col, badArgCountMsg args.length⟩] }, false)
  | _ =>
    -- line 85: the callee is not a bare Name (so not the name `_`)
    .ok (st, false)

mutual
/-- Model of `ast.NodeVisitor.visit`: dispatch to `visit_Call` on a `Call` node, and
to `generic_visit` (visit every child node) otherwise.  The `Call` arm is
the whole of `Analyzer.visit_Call`: lines 76-78 iterate over
`node.func.value` (present exactly when `node.func` is an `Attribute`;
an `ast.Constant` also has a `value` attribute, but it holds a plain
Python value, which `_iterate` ignores), line 80 iterates over the
positional arguments, line 82 over the keyword-argument values; then the
checks run (`callChecks`), and on the paths that do not return early,
line 204 `generic_visit`s the node's children (`func`, `args`,
`keywords`). -/
def visit (fname : String) (st : St) : Expr → Except Crash St
  | .name _ _ => .ok st
  | .const _ _ => .ok st
  | .attr _ v _ => visit fname st v
  | .listE _ elts => genericL fname st elts
  | .tupleE _ elts => genericL fname st elts
  | .dictE _ ks vs =>
      match genericL fname st ks with
      | .error c => .error c
      | .ok st1 => genericL fname st1 vs
  | .binOp _ l r =>
      match visit fname st l with
      | .error c => .error c
      | .ok st1 => visit fname st1 r
  | .call _ f args kws =>
      match (match f with
             | .attr _ fv _ => iterItem fname st fv
             | _ => .ok st) with
      | .error c => .error c
      | .ok st1 =>
        match iterateL fname st1 args with
        | .error c => .error c
        | .ok st2 =>
          match iterateL fname st2 kws with
          | .error c => .error c
          | .ok st3 =>
            match callChecks fname st3 f args with
            | .error c => .error c
            | .ok (st4, false) => .ok st4
            | .ok (st4, true) =>
              match visit fname st4 f with
              | .error c => .error c
              | .ok st5 =>
                match genericL fname st5 args with
                | .error c => .error c
                | .ok st6 => genericL fname st6 kws

/-- The body of the `for` loop of `Analyzer._iterate` (lines 26-37) for one
item: a `Call` is handed to `visit_Call` (whose code is the same as the
`Call` arm of `visit` above), a `List`/`Tuple` has its elements iterated, a
`Dict` its keys then its values, a `BinOp` its two operands; every other
node kind (including `Attribute`) is ignored. -/
def iterItem (fname : String) (st : St) : Expr → Except Crash St
  | .name _ _ => .ok st
  | .const _ _ => .ok st
  | .attr _ _ _ => .ok st
  | .listE _ elts => iterateL fname st elts
  | .tupleE _ elts => iterateL fname st elts
  | .dictE _ ks vs =>
      match iterateL fname st ks with
      | .error c => .error c
      | .ok st1 => iterateL fname st1 vs
  | .binOp _ l r =>
      match iterItem fname st l with
      | .error c => .error c
      | .ok st1 => iterItem fname st1 r
  | .call _ f args kws =>
      match (match f with
             | .attr _ fv _ => iterItem fname st fv
             | _ => .ok st) with
      | .error c => .error c
      | .ok st1 =>
        match iterateL fname st1 args with
        | .error c => .error c
        | .ok st2 =>
          match iterateL fname st2 kws with
          | .error c => .error c
          | .ok st3 =>
            match callChecks fname st3 f args with
            | .error c => .error c
            | .ok (st4, false) => .ok st4
            | .ok (st4, true) =>
              match visit fname st4 f with
              | .error c => .error c
              | .ok st5 =>
                match genericL fname st5 args with
                | .error c => .error c
                | .ok st6 => genericL fname st6 kws

/-- Model of `Analyzer._iterate` over a node list: the loop body (`iterItem`) on
each element in order. -/
def iterateL (fname : String) (st : St) : ExprList → Except Crash St
  | .nil => .ok st
  | .cons e rest =>
      match iterItem fname st e with
      | .error c => .error c
      | .ok st1 => iterateL fname st1 rest

/-- Model of `generic_visit` over a list of child nodes: `visit` on each in order. -/
def genericL (fname : String) (st : St) : ExprList → Except Crash St
  | .nil => .ok st
  | .cons e rest =>
      match visit fname st e with
      | .error c => .error c
      | .ok st1 => genericL fname st1 rest
end

/-- Visit the expression statements of a module in order, starting from the
given state. -/
def analyzeSt (fname : String) : St → List Expr → Except Crash St
  | st, [] => .ok st
  | st, e :: rest =>
      match visit fname st e with
      | .error c => .error c
      | .ok st1 => analyzeSt fname st1 rest

/-- Model of `Analyzer(filename).visit(tree)` for a single-file module whose
statements are the given expression statements: the accumulated
`errors`/`warnings`/`strings`, or the Python exception that escaped. -/
def analyzeModule (fname : String) (stmts : List Expr) : Except Crash St :=
  analyzeSt fname ⟨[], [], []⟩ stmts

/-!
## popie/popiefile.py

The catalog side works on file contents.  Text is modelled as `List Char`
(file content, catalog keys, catalog values alike), which keeps the
line-splitting and stripping arguments elementary.
-/

/-- The characters Python's `str.strip()` removes: exactly the code points
CPython's `Py_UNICODE_ISSPACE` accepts — `\t` `\n` `\x0b` `\x0c` `\r`
(U+0009-U+000D), U+001C-U+001F, the space U+0020, U+0085, U+00A0, U+1680,
U+2000-U+200A, U+2028, U+2029, U+202F, U+205F and U+3000. -/
def isWsChar (c : Char) : Bool :=
  (0x9 ≤ c.toNat && c.toNat ≤ 0xd)
  || (0x1c ≤ c.toNat && c.toNat ≤ 0x1f)
  || c.toNat = 0x20 || c.toNat = 0x85 || c.toNat = 0xa0 || c.toNat = 0x1680
  || (0x2000 ≤ c.toNat && c.toNat ≤ 0x200a)
  || c.toNat = 0x2028 || c.toNat = 0x2029 || c.toNat = 0x202f
  || c.toNat = 0x205f || c.toNat = 0x3000

/-- Strip leading whitespace. -/
def dropWs (l : List Char) : List Char := l.dropWhile isWsChar

/-- Python `line.strip()`: strip leading and trailing whitespace. -/
def stripChars (l : List Char) : List Char :=
  (dropWs (dropWs l).reverse).reverse

/-- Split file content into lines.  `load_strings` opens the file in text
mode with the default `newline=None`, so universal-newline translation
applies: `\r\n` and a lone `\r` are line breaks just like `\n`, and
`readlines()` then splits at the translated `\n`.  The flag records
whether the previous character was `\r`, so that the `\n` of a `\r\n`
pair does not open a second break.  (`readlines()` keeps the line
terminators, but every line is stripped before use, so splitting is
equivalent; the extra final empty piece this produces is skipped by the
`if not len(line)` test.) -/
def splitNlAux : Bool → List Char → List (List Char)
  | _, [] => [[]]
  | afterCr, c :: rest =>
    if c = '\n' then
      if afterCr then splitNlAux false rest else [] :: splitNlAux false rest
    else if c = '\r' then [] :: splitNlAux true rest
    else
      match splitNlAux false rest with
      | l :: ls => (c :: l) :: ls
      | [] => [[c]]

/-- The lines of a file's content under universal newlines. -/
def splitNl (content : List Char) : List (List Char) := splitNlAux false content

/-- The `translations` attribute: an insertion-ordered association list
from `msgid` text to optional `msgstr` text, mirroring a Python `dict`. -/
abbrev AList : Type := List (List Char × Option (List Char))

/-- Assignment `d[k] = v` on a Python dict: update the entry in place when the key
exists (keeping its position), append a new entry otherwise. -/
def dictSet (d : AList) (k : List Char) (v : Option (List Char)) : AList :=
  match d with
  | [] => [(k, v)]
  | (k', v') :: rest => if k' = k then (k', v) :: rest else (k', v') :: dictSet rest k v

/-- Lookup, `k in d` and `d[k]` combined: the value stored under a key, if any. -/
def alookup (d : AList) (k : List Char) : Option (Option (List Char)) :=
  match d with
  | [] => none
  | (k', v) :: rest => if k' = k then some v else alookup rest k

/-- The marker `"msgid "` (the prefix including its trailing space; `len` is 6). -/
def MSGID : List Char := ['m', 's', 'g', 'i', 'd', ' ']

/-- The marker `"msgstr"` (`len` is 6). -/
def MSGSTR : List Char := ['m', 's', 'g', 's', 't', 'r']

/-- The loop of `PoPieFile.load_strings` (popiefile.py lines 34-63) over
the lines of the file, with the current `msgid` (initially the empty
string) and the `translations` accumulator. -/
def loadGo : List (List Char) → List Char → AList → AList
  | [], _, acc => acc
  | line :: rest, msgid, acc =>
    let l := stripChars line
    if l.length = 0 then loadGo rest msgid acc
    else if MSGID.isPrefixOf l then loadGo rest (l.drop 6) acc
    else if MSGSTR.isPrefixOf l then
      let v := stripChars (l.drop 6)
      loadGo rest msgid (dictSet acc msgid (if v.length = 0 then none else some v))
    else loadGo rest msgid acc

/-- Model of `PoPieFile.load_strings` against a file whose content is `fs`
(`none` when the file does not exist, which loads nothing). -/
def loadStrings : Option (List Char) → AList
  | none => []
  | some content => loadGo (splitNl content) [] []

/-- One attempted match of the regex `\x7b(.+?)\x7d` beginning just after a
`\x7b`: lazily consume at least one non-newline character up to the first
possible closing `\x7d`; return the captured group and the remaining input
after the match, or `none` when the input ends or a newline intervenes
(`.` does not match a newline). -/
def grabVar (acc : List Char) : List Char → Option (List Char × Nat)
  | [] => none
  | c :: rest =>
    if c = '}' ∧ acc ≠ [] then some (acc.reverse, acc.length + 1)
    else if c = '\n' then none
    else grabVar (c :: acc) rest

/-- Model of `re.findall(r"\x7b(.+?)\x7d", text)`: scan left to right, attempting a
lazy match at every `\x7b`; after a match (`grabVar` also reports how many
characters it consumed) continue behind it, after a failed attempt
continue at the next character. -/
def findVars : List Char → List (List Char)
  | [] => []
  | c :: rest =>
    if c = '{' then
      match grabVar [] rest with
      | some (v, n) => v :: findVars (rest.drop n)
      | none => findVars rest
    else findVars rest
termination_by l => l.length
decreasing_by
  · simp only [List.length_cons, List.length_drop]
    omega
  · simp only [List.length_cons]
    omega
  · simp only [List.length_cons]
    omega

/-- The test `set(a) != set(b)` for the placeholder-name lists, negated: the two
lists contain the same elements. -/
def varSetEq (a b : List (List Char)) : Bool :=
  a.all (b.contains ·) && b.all (a.contains ·)

/-- The error message of `check_strings` (popiefile.py lines 73-76). -/
def checkErrMsg (key : List Char) (valueVars : List (List Char)) : List Char :=
  "Translation for \x27".data ++ key ++ "\x27 contains bad variables: ".data
    ++ List.intercalate ", ".data valueVars ++ ['.']

/-- Model of `PoPieFile.check_strings` (popiefile.py lines 65-77): one error per
record whose stored translation's placeholder set differs from its key's;
records with an absent translation are skipped. -/
def checkStrings (translations : AList) : List (List Char) :=
  translations.foldl
    (fun errs kv =>
      match kv.2 with
      | none => errs
      | some value =>
        if varSetEq (findVars kv.1) (findVars value) then errs
        else errs ++ [checkErrMsg kv.1 (findVars value)])
    []

/-- The loop of `PoPieFile.update` (popiefile.py lines 94-98) over the
reporter's strings, writing into the fresh `translations` dict `acc`;
`old` is the previous `translations` mapping. -/
def updateGo (old : AList) : List (List Char) → AList → AList
  | [], acc => acc
  | s :: rest, acc =>
    match alookup old s with
    | some v => updateGo old rest (dictSet acc s v)
    | none => updateGo old rest (dictSet acc s none)

/-- Model of `PoPieFile.update` (popiefile.py lines 79-98): rebuild `translations`
from scratch out of the pool of discovered strings, carrying over the
previous value of every string that was already a key. -/
def update (old : AList) (pool : List (List Char)) : AList :=
  updateGo old pool []

/-- The line `msgid <key>` as `save` writes it (without its newline). -/
def msgidLine (k : List Char) : List Char := MSGID ++ k

/-- The line `msgstr <value>`, or the bare line `msgstr` when the
translation is absent (without its newline). -/
def msgstrLine : Option (List Char) → List Char
  | some t => MSGSTR ++ ' ' :: t
  | none => MSGSTR

/-- One record as `PoPieFile.save` writes it: the `msgid` line, a newline,
the `msgstr` line, a newline. -/
def entryChars (k : List Char) (v : Option (List Char)) : List Char :=
  msgidLine k ++ '\n' :: (msgstrLine v ++ ['\n'])

/-- Model of `PoPieFile.save` (popiefile.py lines 100-114): the records in
`translations` order, separated by exactly one blank line, with no blank
line after the last record. -/
def saveChars : AList → List Char
  | [] => []
  | [kv] => entryChars kv.1 kv.2
  | kv :: rest => entryChars kv.1 kv.2 ++ '\n' :: saveChars rest

/-- The fields of a `PoPieFile` object: `translations` and `errors` as
`__init__` builds them (`load_strings` then `check_strings`), `_before`
(the file content read at construction, `None` when the file did not
exist) and the `functools.lru_cache` storage backing `_get_after`
(empty until the first call). -/
structure PoPieFile where
  translations : AList
  errors : List (List Char)
  before : Option (List Char)
  afterCache : Option (Option (List Char))
deriving DecidableEq

/-- Model of `PoPieFile(filename)` constructed against a file system in which the
file currently holds `fs` (`none` = the file does not exist). -/
def PoPieFile.init (fs : Option (List Char)) : PoPieFile :=
  { translations := loadStrings fs
    errors := checkStrings (loadStrings fs)
    before := fs
    afterCache := none }

/-- Model of `PoPieFile._get_after` (popiefile.py lines 116-123): read the file's
current content — except that `functools.lru_cache` returns the cached
result of the first call from then on. -/
def getAfter (fs : Option (List Char)) (p : PoPieFile) :
    Option (List Char) × PoPieFile :=
  match p.afterCache with
  | some a => (a, p)
  | none => (fs, { p with afterCache := some fs })

/-- Model of `PoPieFile.is_updated` (popiefile.py lines 125-127) against the
current file content `fs`. -/
def isUpdated (fs : Option (List Char)) (p : PoPieFile) : Bool × PoPieFile :=
  let r := getAfter fs p
  (p.before != r.1, r.2)

/-- One run of `main.run` for one language, restricted to the catalog
side: construct the `PoPieFile` against the current file content,
`update` from the scan's pool, `save`, then query `is_updated`.  Returns
the saved file content and the `is_updated` answer. -/
def runPass (fs : Option (List Char)) (pool : List (List Char)) :
    List Char × Bool :=
  let p := PoPieFile.init fs
  let p1 : PoPieFile := { p with translations := update p.translations pool }
  let saved := saveChars p1.translations
  (saved, (isUpdated (some saved) p1).1)

/-!
## Specification-side definitions

Used only in theorem statements, to say what the code-side definitions
above compute. -/

/-- The distinct elements of a list in order of first occurrence. -/
def firstOccur : List (List Char) → List (List Char)
  | [] => []
  | s :: rest => s :: firstOccur (rest.filter (fun t => t != s))
termination_by l => l.length
decreasing_by
  simp only [List.length_cons]
  have := List.length_filter_le (fun t => t != s) rest
  omega

/-- A string of the analyzer's pool of valid extracted strings: it passed
`_check_string`, so it is nonempty, does not start or end with a space or
tab, and contains no newline. -/
def validString (s : List Char) : Bool :=
  !s.isEmpty
  && (match s.head? with | some c => !(c == ' ' || c == '\t') | none => false)
  && (match s.getLast? with | some c => !(c == ' ' || c == '\t') | none => false)
  && !(s.contains '\n')

/-- A valid extracted string that moreover survives the loader unchanged:
it contains no carriage return (a `\r` inside a saved line is a line
break under universal newlines) and its last character is none of the
whitespace characters `strip()` removes. -/
def savableString (s : List Char) : Bool :=
  validString s && !(s.contains '\r')
    && (match s.getLast? with | some c => !isWsChar c | none => false)

/-- A catalog key round-trips through save/load when it is nonempty, free
of both newline characters, and its last character is not stripped
whitespace. -/
def goodKey (k : List Char) : Prop :=
  k ≠ [] ∧ '\n' ∉ k ∧ '\r' ∉ k ∧ ∀ c, k.getLast? = some c → isWsChar c = false

/-- A catalog value round-trips through save/load when it is nonempty,
free of both newline characters, and neither end is stripped
whitespace. -/
def goodVal (t : List Char) : Prop :=
  t ≠ [] ∧ '\n' ∉ t ∧ '\r' ∉ t ∧ (∀ c, t.head? = some c → isWsChar c = false)
    ∧ (∀ c, t.getLast? = some c → isWsChar c = false)

/-!
## Fixtures: the concrete syntax trees of the claims -/

/-- The translation call `_(ctx, "Text")`: callee at 1:0, context argument
at 1:2, string literal at 1:7. -/
def textCall : Expr :=
  .call ⟨1, 0⟩ (.name ⟨1, 0⟩ "_")
    (.cons (.name ⟨1, 2⟩ "ctx") (.cons (.const ⟨1, 7⟩ (.str "Text")) .nil)) .nil

/-- The syntactic positions of claim C1 in which a call may be embedded. -/
inductive PosKind where
  | listElem
  | tupleElem
  | dictKey
  | dictValue
  | callArg
  | callKw
  | binOpLeft
  | binOpRight
deriving DecidableEq

/-- A neutral sibling expression (a plain string literal). -/
def filler : Expr := .const ⟨1, 20⟩ (.str "value")

/-- Embed an expression in one of C1's syntactic positions: sole element
of a list or tuple, dict key or value, positional or keyword argument of
a call to a function other than `_`, or operand of a binary operation. -/
def wrap : PosKind → Expr → Expr
  | .listElem, e => .listE ⟨1, 0⟩ (.cons e .nil)
  | .tupleElem, e => .tupleE ⟨1, 0⟩ (.cons e .nil)
  | .dictKey, e => .dictE ⟨1, 0⟩ (.cons e .nil) (.cons filler .nil)
  | .dictValue, e => .dictE ⟨1, 0⟩ (.cons filler .nil) (.cons e .nil)
  | .callArg, e => .call ⟨1, 0⟩ (.name ⟨1, 0⟩ "function") (.cons e .nil) .nil
  | .callKw, e => .call ⟨1, 0⟩ (.name ⟨1, 0⟩ "function") .nil (.cons e .nil)
  | .binOpLeft, e => .binOp ⟨1, 0⟩ e filler
  | .binOpRight, e => .binOp ⟨1, 0⟩ filler e

/-- Zero or one wrapping. -/
def wrapO : Option PosKind → Expr → Expr
  | none, e => e
  | some w, e => wrap w e

/-- A translation call `_(ctx, <s>)` with the given string literal;
callee at 1:0, literal at 1:7. -/
def strCall (s : String) : Expr :=
  .call ⟨1, 0⟩ (.name ⟨1, 0⟩ "_")
    (.cons (.name ⟨1, 2⟩ "ctx") (.cons (.const ⟨1, 7⟩ (.str s)) .nil)) .nil

/-- A translation call `_(<ctx>, "Text")` with the given context argument;
callee at 1:0, string literal at 1:10. -/
def ctxCall (ctxArg : Expr) : Expr :=
  .call ⟨1, 0⟩ (.name ⟨1, 0⟩ "_")
    (.cons ctxArg (.cons (.const ⟨1, 10⟩ (.str "Text")) .nil)) .nil

/-- The source `_(ctx, "\x7btext\x7d".format(text="Text"))`: a `.format()` call as the
second argument of the translation call.  The translation callee is at
1:0; the inner `.format` call and its parts live at distinct positions. -/
def formatInside : Expr :=
  .call ⟨1, 0⟩ (.name ⟨1, 0⟩ "_")
    (.cons (.name ⟨1, 2⟩ "ctx")
      (.cons (.call ⟨1, 7⟩ (.attr ⟨1, 7⟩ (.const ⟨1, 7⟩ (.str "\x7btext\x7d")) "format")
        .nil (.cons (.const ⟨1, 29⟩ (.str "Text")) .nil)) .nil)) .nil

/-- The source `"\x7btext\x7d".format(text="Text")` on its own, no enclosing `_()`. -/
def bareFormat : Expr :=
  .call ⟨1, 0⟩ (.attr ⟨1, 0⟩ (.const ⟨1, 0⟩ (.str "\x7btext\x7d")) "format")
    .nil (.cons (.const ⟨1, 22⟩ (.str "Text")) .nil)

/-- The source `_(ctx, "Text \x7bs\x7d").format(s="s")`: chained formatting outside the
translation call.  The inner translation call's literal is at 1:7. -/
def chainedFormat : Expr :=
  .call ⟨1, 0⟩
    (.attr ⟨1, 0⟩
      (.call ⟨1, 0⟩ (.name ⟨1, 0⟩ "_")
        (.cons (.name ⟨1, 2⟩ "ctx") (.cons (.const ⟨1, 7⟩ (.str "Text \x7bs\x7d")) .nil))
        .nil)
      "format")
    .nil (.cons (.const ⟨1, 30⟩ (.str "s")) .nil)

/-- The prior catalog file of the C7 counterexample:
`msgid a` / `msgstr T`. -/
def crPrior : List Char := ['m','s','g','i','d',' ','a','\n','m','s','g','s','t','r',' ','T']

/-- The pool of the C7 counterexample: `"a"` and `"a\r"`, both of which
pass `_check_string`. -/
def crPool : List (List Char) := [['a'], ['a', '\r']]

/-!
## Helper lemmas: dict operations and the update loop -/

theorem alookup_mem : ∀ (d : AList) (k : List Char) (v : Option (List Char)),
    alookup d k = some v → (k, v) ∈ d := by
  intro d k v h
  induction d with
  | nil => simp [alookup] at h
  | cons kv rest ih =>
    obtain ⟨k2, v2⟩ := kv
    simp only [alookup] at h
    split at h
    · rename_i heq
      injection h with h
      subst heq; subst h
      exact List.mem_cons_self _ _
    · exact List.mem_cons_of_mem _ (ih h)

theorem dictSet_eq_of_lookup : ∀ (d : AList) (k : List Char) (v : Option (List Char)),
    alookup d k = some v → dictSet d k v = d := by
  intro d k v h
  induction d with
  | nil => simp [alookup] at h
  | cons kv rest ih =>
    obtain ⟨k2, v2⟩ := kv
    simp only [alookup] at h
    split at h
    · rename_i heq
      injection h with h
      subst heq; subst h
      simp [dictSet]
    · rename_i hne
      simp [dictSet, hne, ih h]

theorem dictSet_eq_append : ∀ (d : AList) (k : List Char) (v : Option (List Char)),
    alookup d k = none → dictSet d k v = d ++ [(k, v)] := by
  intro d k v h
  induction d with
  | nil => simp [dictSet]
  | cons kv rest ih =>
    obtain ⟨k2, v2⟩ := kv
    simp only [alookup] at h
    split at h
    · simp at h
    · rename_i hne
      simp [dictSet, hne, ih h]

theorem alookup_append (d1 d2 : AList) (k : List Char) :
    alookup (d1 ++ d2) k =
      match alookup d1 k with
      | some v => some v
      | none => alookup d2 k := by
  induction d1 with
  | nil => simp [alookup]
  | cons kv rest ih =>
    obtain ⟨k2, v2⟩ := kv
    by_cases h : k2 = k
    · simp [alookup, h]
    · simp [alookup, h, ih]

theorem filter_alookup_append_single (acc : AList) (s : List Char)
    (w : Option (List Char)) (l : List (List Char)) :
    l.filter (fun t => (alookup (acc ++ [(s, w)]) t).isNone)
      = (l.filter (fun t => (alookup acc t).isNone)).filter (fun t => t != s) := by
  rw [List.filter_filter]
  apply List.filter_congr
  intro t _
  cases h1 : alookup acc t with
  | some u => simp [alookup_append, h1]
  | none =>
    by_cases h2 : s = t
    · subst h2; simp [alookup_append, h1, alookup]
    · simp [alookup_append, h1, alookup, h2, bne_iff_ne, Ne.symm h2]

theorem updateGo_eq (old : AList) : ∀ (pool : List (List Char)) (acc : AList),
    (∀ k v, (k, v) ∈ acc → v = Option.join (alookup old k)) →
    updateGo old pool acc =
      acc ++ (firstOccur (pool.filter (fun s => (alookup acc s).isNone))).map
        (fun s => (s, Option.join (alookup old s))) := by
  intro pool
  induction pool with
  | nil => intro acc _; simp [updateGo, firstOccur]
  | cons s rest ih =>
    intro acc hacc
    have hstep : updateGo old (s :: rest) acc
        = updateGo old rest (dictSet acc s (Option.join (alookup old s))) := by
      cases h : alookup old s <;> simp [updateGo, h, Option.join]
    rw [hstep]
    cases h : alookup acc s with
    | some v0 =>
      have hv0 : v0 = Option.join (alookup old s) := hacc s v0 (alookup_mem _ _ _ h)
      rw [← hv0, dictSet_eq_of_lookup _ _ _ h, ih acc hacc]
      have : ((s :: rest).filter (fun t => (alookup acc t).isNone))
          = rest.filter (fun t => (alookup acc t).isNone) := by
        simp [List.filter_cons, h]
      rw [this]
    | none =>
      rw [dictSet_eq_append _ _ _ h]
      have hacc2 : ∀ k v, (k, v) ∈ acc ++ [(s, Option.join (alookup old s))] →
          v = Option.join (alookup old k) := by
        intro k v hm
        rcases List.mem_append.mp hm with hm | hm
        · exact hacc k v hm
        · simp only [List.mem_singleton, Prod.mk.injEq] at hm
          obtain ⟨rfl, rfl⟩ := hm
          rfl
      rw [ih _ hacc2, List.append_assoc]
      have hps : ((s :: rest).filter (fun t => (alookup acc t).isNone))
          = s :: rest.filter (fun t => (alookup acc t).isNone) := by
        simp [List.filter_cons, h]
      rw [hps, firstOccur, filter_alookup_append_single]
      simp

/-- What `update` computes: the catalog is rebuilt with the pool's
distinct strings as keys, in order of first occurrence, each mapped to
its previous value if it was a key before and to `none` otherwise. -/
theorem update_eq (old : AList) (pool : List (List Char)) :
    update old pool =
      (firstOccur pool).map (fun s => (s, Option.join (alookup old s))) := by
  have h := updateGo_eq old pool [] (by intro k v hm; simp at hm)
  simpa [update, alookup] using h

/-!
## Helper lemmas: line splitting, stripping, and the save/load round trip -/

theorem splitNl_clean {a : List Char} (h1 : '\n' ∉ a) (h2 : '\r' ∉ a) :
    splitNl a = [a] := by
  rw [splitNl]
  induction a with
  | nil => rfl
  | cons c rest ih =>
    have hc1 : ¬(c = '\n') := fun hh => h1 (hh ▸ List.mem_cons_self c rest)
    have hc2 : ¬(c = '\r') := fun hh => h2 (hh ▸ List.mem_cons_self c rest)
    have hr1 : '\n' ∉ rest := fun hh => h1 (List.mem_cons_of_mem c hh)
    have hr2 : '\r' ∉ rest := fun hh => h2 (List.mem_cons_of_mem c hh)
    rw [splitNlAux, if_neg hc1, if_neg hc2, ih hr1 hr2]

theorem splitNl_append_newline {a : List Char} (b : List Char)
    (h1 : '\n' ∉ a) (h2 : '\r' ∉ a) :
    splitNl (a ++ '\n' :: b) = a :: splitNl b := by
  rw [splitNl, splitNl]
  induction a with
  | nil => simp [splitNlAux]
  | cons c rest ih =>
    have hc1 : ¬(c = '\n') := fun hh => h1 (hh ▸ List.mem_cons_self c rest)
    have hc2 : ¬(c = '\r') := fun hh => h2 (hh ▸ List.mem_cons_self c rest)
    have hr1 : '\n' ∉ rest := fun hh => h1 (List.mem_cons_of_mem c hh)
    have hr2 : '\r' ∉ rest := fun hh => h2 (List.mem_cons_of_mem c hh)
    rw [List.cons_append, splitNlAux, if_neg hc1, if_neg hc2, ih hr1 hr2]

theorem mem_splitNlAux_clean : ∀ (c : List Char) (b : Bool) (l : List Char),
    l ∈ splitNlAux b c → '\n' ∉ l ∧ '\r' ∉ l := by
  intro c
  induction c with
  | nil => intro b l hl; simp [splitNlAux] at hl; simp [hl]
  | cons ch rest ih =>
    intro b l hl
    by_cases h1 : ch = '\n'
    · rw [splitNlAux, if_pos h1] at hl
      cases b with
      | true =>
        rw [if_pos rfl] at hl
        exact ih false l hl
      | false =>
        rw [if_neg (by simp)] at hl
        rcases List.mem_cons.mp hl with rfl | hl
        · simp
        · exact ih false l hl
    · by_cases h2 : ch = '\r'
      · rw [splitNlAux, if_neg h1, if_pos h2] at hl
        rcases List.mem_cons.mp hl with rfl | hl
        · simp
        · exact ih true l hl
      · rw [splitNlAux, if_neg h1, if_neg h2] at hl
        cases hsp : splitNlAux false rest with
        | nil =>
          rw [hsp] at hl
          simp at hl
          subst hl
          constructor
          · intro hm; simp at hm; exact h1 hm.symm
          · intro hm; simp at hm; exact h2 hm.symm
        | cons l0 ls =>
          rw [hsp] at hl
          rcases List.mem_cons.mp hl with rfl | hl
          · have h0 := ih false l0 (hsp ▸ List.mem_cons_self l0 ls)
            constructor
            · intro hm
              rcases List.mem_cons.mp hm with hm | hm
              · exact h1 hm.symm
              · exact h0.1 hm
            · intro hm
              rcases List.mem_cons.mp hm with hm | hm
              · exact h2 hm.symm
              · exact h0.2 hm
          · exact ih false l (hsp ▸ List.mem_cons_of_mem l0 hl)

theorem mem_splitNl_clean (c : List Char) (l : List Char) (h : l ∈ splitNl c) :
    '\n' ∉ l ∧ '\r' ∉ l :=
  mem_splitNlAux_clean c false l h

theorem dropWs_cons_not_ws {c : Char} (t : List Char) (h : isWsChar c = false) :
    dropWs (c :: t) = c :: t := by
  simp [dropWs, List.dropWhile_cons, h]

theorem head?_dropWs : ∀ (l : List Char) (c : Char),
    (dropWs l).head? = some c → isWsChar c = false := by
  intro l
  induction l with
  | nil => intro c h; simp [dropWs] at h
  | cons x t ih =>
    intro c h
    by_cases hx : isWsChar x
    · rw [show dropWs (x :: t) = dropWs t by simp [dropWs, List.dropWhile_cons, hx]] at h
      exact ih c h
    · rw [dropWs_cons_not_ws t (by simpa using hx)] at h
      simp at h
      subst h
      simpa using hx

theorem getLast?_dropWs : ∀ (l : List Char), dropWs l ≠ [] →
    (dropWs l).getLast? = l.getLast? := by
  intro l
  induction l with
  | nil => intro h; simp [dropWs] at h
  | cons x t ih =>
    intro h
    by_cases hx : isWsChar x
    · have hdt : dropWs (x :: t) = dropWs t := by simp [dropWs, List.dropWhile_cons, hx]
      rw [hdt] at h ⊢
      have ht : t ≠ [] := by
        intro hnil
        rw [hnil] at h
        simp [dropWs] at h
      obtain ⟨y, t', rfl⟩ := List.exists_cons_of_ne_nil ht
      rw [List.getLast?_cons_cons]
      exact ih h
    · rw [dropWs_cons_not_ws t (by simpa using hx)]

theorem stripChars_eq_self_of_clean (l : List Char)
    (h1 : ∀ c, l.head? = some c → isWsChar c = false)
    (h2 : ∀ c, l.getLast? = some c → isWsChar c = false) :
    stripChars l = l := by
  cases l with
  | nil => rfl
  | cons c t =>
    have hd : dropWs (c :: t) = c :: t :=
      dropWs_cons_not_ws t (h1 c (by simp))
    rw [stripChars, hd]
    cases hgl : (c :: t).getLast? with
    | none => simp [List.getLast?_eq_none_iff] at hgl
    | some c2 =>
      have hrev : (c :: t).reverse.head? = some c2 := by
        rw [List.head?_reverse]; exact hgl
      obtain ⟨r, rs, hr⟩ : ∃ r rs, (c :: t).reverse = r :: rs := by
        cases hh : (c :: t).reverse with
        | nil => simp at hh
        | cons r rs => exact ⟨r, rs, rfl⟩
      rw [hr]
      rw [hr] at hrev
      simp at hrev
      rw [dropWs_cons_not_ws rs (hrev ▸ h2 c2 hgl), ← hr, List.reverse_reverse]

theorem stripChars_ends_clean (l : List Char) (h : stripChars l ≠ []) :
    (∀ c, (stripChars l).head? = some c → isWsChar c = false) ∧
    (∀ c, (stripChars l).getLast? = some c → isWsChar c = false) := by
  have hy : stripChars l = (dropWs (dropWs l).reverse).reverse := rfl
  constructor
  · intro c hc
    rw [hy, List.head?_reverse] at hc
    have hne : dropWs (dropWs l).reverse ≠ [] := by
      intro hnil
      rw [hy, hnil] at h
      simp at h
    rw [getLast?_dropWs _ hne, List.getLast?_reverse] at hc
    exact head?_dropWs l c hc
  · intro c hc
    rw [hy, List.getLast?_reverse] at hc
    exact head?_dropWs _ c hc

theorem mem_stripChars {x : Char} {l : List Char} (h : x ∈ stripChars l) : x ∈ l := by
  have h1 : x ∈ dropWs (dropWs l).reverse := List.mem_reverse.mp (by simpa [stripChars] using h)
  have h2 : x ∈ (dropWs l).reverse := (List.dropWhile_sublist _).mem h1
  have h3 : x ∈ dropWs l := List.mem_reverse.mp h2
  exact (List.dropWhile_sublist _).mem h3


theorem alookup_dictSet (d : AList) (k0 k : List Char) (v : Option (List Char)) :
    alookup (dictSet d k0 v) k = if k0 = k then some v else alookup d k := by
  induction d with
  | nil => simp [dictSet, alookup]
  | cons kv rest ih =>
    obtain ⟨k2, v2⟩ := kv
    by_cases h : k2 = k0
    · subst h
      by_cases h2 : k2 = k
      · subst h2; simp [dictSet, alookup]
      · simp [dictSet, alookup, h2]
    · by_cases h2 : k2 = k
      · subst h2
        have hne : ¬(k0 = k2) := fun hh => h hh.symm
        simp [dictSet, alookup, h, hne]
      · simp [dictSet, alookup, h, h2, ih]

theorem savable_goodKey {s : List Char} (h : savableString s = true) : goodKey s := by
  unfold savableString validString at h
  simp only [Bool.and_eq_true] at h
  obtain ⟨⟨⟨⟨⟨h1, h2⟩, h3⟩, h4⟩, hcr⟩, h5⟩ := h
  refine ⟨?_, ?_, ?_, ?_⟩
  · intro hnil
    rw [hnil] at h1
    simp at h1
  · intro hmem
    exact absurd hmem (by simpa using h4)
  · intro hmem
    exact absurd hmem (by simpa using hcr)
  · intro c hc
    rw [hc] at h5
    simpa using h5

theorem join_eq_some {x : Option (Option (List Char))} {t : List Char}
    (h : Option.join x = some t) : x = some (some t) := by
  cases x with
  | none => simp [Option.join] at h
  | some y => simpa [Option.join] using h

theorem loadGo_values_good : ∀ (lines : List (List Char)) (msgid : List Char) (acc : AList),
    (∀ line ∈ lines, '\n' ∉ line ∧ '\r' ∉ line) →
    (∀ k t, alookup acc k = some (some t) → goodVal t) →
    ∀ k t, alookup (loadGo lines msgid acc) k = some (some t) → goodVal t := by
  intro lines
  induction lines with
  | nil => intro msgid acc _ hacc; simpa [loadGo] using hacc
  | cons line rest ih =>
    intro msgid acc hlines hacc
    have hline : '\n' ∉ line ∧ '\r' ∉ line := hlines line (List.mem_cons_self _ _)
    have hrest : ∀ l ∈ rest, '\n' ∉ l ∧ '\r' ∉ l :=
      fun l hl => hlines l (List.mem_cons_of_mem _ hl)
    simp only [loadGo]
    by_cases h0 : (stripChars line).length = 0
    · rw [if_pos h0]; exact ih msgid acc hrest hacc
    · rw [if_neg h0]
      by_cases h1 : MSGID.isPrefixOf (stripChars line) = true
      · rw [if_pos h1]; exact ih _ acc hrest hacc
      · rw [if_neg h1]
        by_cases h2 : MSGSTR.isPrefixOf (stripChars line) = true
        · rw [if_pos h2]
          apply ih _ _ hrest
          intro k t hk
          rw [alookup_dictSet] at hk
          by_cases hkm : msgid = k
          · rw [if_pos hkm] at hk
            injection hk with hk
            by_cases hv0 : (stripChars ((stripChars line).drop 6)).length = 0
            · rw [if_pos hv0] at hk; exact absurd hk (by simp)
            · rw [if_neg hv0] at hk
              injection hk with hk
              subst hk
              have hne : stripChars ((stripChars line).drop 6) ≠ [] := by
                intro hnil; rw [hnil] at hv0; simp at hv0
              obtain ⟨hh, hl⟩ := stripChars_ends_clean _ hne
              refine ⟨hne, ?_, ?_, hh, hl⟩
              · intro hmem
                exact hline.1
                  (mem_stripChars ((List.drop_sublist 6 _).mem (mem_stripChars hmem)))
              · intro hmem
                exact hline.2
                  (mem_stripChars ((List.drop_sublist 6 _).mem (mem_stripChars hmem)))
          · rw [if_neg hkm] at hk; exact hacc k t hk
        · rw [if_neg h2]; exact ih msgid acc hrest hacc

theorem loadStrings_values_good (fs : Option (List Char)) :
    ∀ k t, alookup (loadStrings fs) k = some (some t) → goodVal t := by
  cases fs with
  | none => intro k t h; simp [loadStrings, alookup] at h
  | some content =>
    exact loadGo_values_good (splitNl content) [] []
      (fun l hl => mem_splitNl_clean content l hl)
      (by intro k t h; simp [alookup] at h)

theorem mem_firstOccur : ∀ (l : List (List Char)) (s : List Char),
    s ∈ firstOccur l → s ∈ l := by
  intro l
  induction l using firstOccur.induct with
  | case1 => intro s h; simp [firstOccur] at h
  | case2 x rest ih =>
    intro s h
    rw [firstOccur] at h
    rcases List.mem_cons.mp h with rfl | h
    · exact List.mem_cons_self _ _
    · exact List.mem_cons_of_mem _ (List.mem_of_mem_filter (ih s h))

theorem firstOccur_nodup : ∀ l : List (List Char), (firstOccur l).Nodup := by
  intro l
  induction l using firstOccur.induct with
  | case1 => simp [firstOccur]
  | case2 x rest ih =>
    rw [firstOccur]
    refine List.nodup_cons.mpr ⟨?_, ih⟩
    intro hmem
    have hfil := List.of_mem_filter (mem_firstOccur _ _ hmem)
    simp at hfil

theorem alookup_map_self (g : List Char → Option (List Char)) :
    ∀ (ks : List (List Char)) (s : List Char), s ∈ ks →
    alookup (ks.map (fun k => (k, g k))) s = some (g s) := by
  intro ks
  induction ks with
  | nil => intro s h; simp at h
  | cons k ks ih =>
    intro s h
    by_cases hk : k = s
    · subst hk; simp [alookup]
    · rcases List.mem_cons.mp h with rfl | h
      · exact absurd rfl hk
      · rw [List.map_cons]
        simp only [alookup]
        rw [if_neg hk]
        exact ih s h


theorem noNl_msgidLine {k : List Char} (hk : goodKey k) : '\n' ∉ msgidLine k := by
  intro h
  simp only [msgidLine] at h
  rcases List.mem_append.mp h with h | h
  · simp [MSGID] at h
  · exact hk.2.1 h

theorem noNl_msgstrLine {v : Option (List Char)}
    (hv : ∀ t, v = some t → goodVal t) : '\n' ∉ msgstrLine v := by
  cases v with
  | none => simp [msgstrLine, MSGSTR]
  | some t =>
    intro h
    simp only [msgstrLine] at h
    rcases List.mem_append.mp h with h | h
    · simp [MSGSTR] at h
    · rcases List.mem_cons.mp h with h | h
      · simp at h
      · exact (hv t rfl).2.1 h

theorem noCr_msgidLine {k : List Char} (hk : goodKey k) : '\r' ∉ msgidLine k := by
  intro h
  simp only [msgidLine] at h
  rcases List.mem_append.mp h with h | h
  · simp [MSGID] at h
  · exact hk.2.2.1 h

theorem noCr_msgstrLine {v : Option (List Char)}
    (hv : ∀ t, v = some t → goodVal t) : '\r' ∉ msgstrLine v := by
  cases v with
  | none => simp [msgstrLine, MSGSTR]
  | some t =>
    intro h
    simp only [msgstrLine] at h
    rcases List.mem_append.mp h with h | h
    · simp [MSGSTR] at h
    · rcases List.mem_cons.mp h with h | h
      · simp at h
      · exact (hv t rfl).2.2.1 h

theorem isPrefixOf_append_right : ∀ (a b : List Char), a.isPrefixOf (a ++ b) = true := by
  intro a b
  induction a with
  | nil => simp [List.isPrefixOf]
  | cons c a2 ih => simp [List.isPrefixOf, ih]

theorem msgid_not_prefixOf_msgstr (x : List Char) :
    MSGID.isPrefixOf (MSGSTR ++ x) = false := by
  simp [MSGID, MSGSTR, List.isPrefixOf]

theorem stripChars_msgidLine {k : List Char} (hk : goodKey k) :
    stripChars (msgidLine k) = msgidLine k := by
  apply stripChars_eq_self_of_clean
  · intro c hc
    have hm : (msgidLine k).head? = some 'm' := by simp [msgidLine, MSGID]
    rw [hm] at hc
    injection hc with hc
    subst hc
    decide
  · intro c hc
    have hm : (msgidLine k).getLast? = k.getLast? := by
      simp only [msgidLine]
      exact List.getLast?_append_of_ne_nil MSGID hk.1
    rw [hm] at hc
    exact hk.2.2.2 c hc

theorem stripChars_msgstrLine {v : Option (List Char)}
    (hv : ∀ t, v = some t → goodVal t) :
    stripChars (msgstrLine v) = msgstrLine v := by
  cases v with
  | none => decide
  | some t =>
    have hgv := hv t rfl
    apply stripChars_eq_self_of_clean
    · intro c hc
      have hm : (msgstrLine (some t)).head? = some 'm' := by simp [msgstrLine, MSGSTR]
      rw [hm] at hc
      injection hc with hc
      subst hc
      decide
    · intro c hc
      have hm : (msgstrLine (some t)).getLast? = t.getLast? := by
        simp only [msgstrLine]
        rw [List.getLast?_append_of_ne_nil MSGSTR (by simp)]
        obtain ⟨x, t2, rfl⟩ := List.exists_cons_of_ne_nil hgv.1
        exact List.getLast?_cons_cons
      rw [hm] at hc
      exact hgv.2.2.2.2 c hc

theorem stripChars_cons_ws {c : Char} (x : List Char) (hc : isWsChar c = true) :
    stripChars (c :: x) = stripChars x := by
  simp [stripChars, dropWs, List.dropWhile_cons, hc]

theorem goodVal_strip_eq {t : List Char} (hgv : goodVal t) : stripChars t = t :=
  stripChars_eq_self_of_clean t hgv.2.2.2.1 hgv.2.2.2.2

theorem stripChars_drop_msgstr {t : List Char} (hgv : goodVal t) :
    stripChars ((msgstrLine (some t)).drop 6) = t := by
  have hdrop : (msgstrLine (some t)).drop 6 = ' ' :: t := by
    simp only [msgstrLine]
    have h6 : MSGSTR.length = 6 := rfl
    rw [← h6, List.drop_left]
  rw [hdrop, stripChars_cons_ws t (by decide), goodVal_strip_eq hgv]

theorem loadGo_two_lines {k : List Char} {v : Option (List Char)}
    (tail : List (List Char)) (m : List Char) (acc : AList)
    (hk : goodKey k) (hv : ∀ t, v = some t → goodVal t) :
    loadGo (msgidLine k :: msgstrLine v :: tail) m acc
      = loadGo tail k (dictSet acc k v) := by
  have e1 : stripChars (msgidLine k) = msgidLine k := stripChars_msgidLine hk
  have hlen1 : ¬((msgidLine k).length = 0) := by simp [msgidLine, MSGID]
  have hpre1 : MSGID.isPrefixOf (msgidLine k) = true := isPrefixOf_append_right MSGID k
  have hdrop1 : (msgidLine k).drop 6 = k := by
    simp only [msgidLine]
    have h6 : MSGID.length = 6 := rfl
    rw [← h6, List.drop_left]
  have step1 : loadGo (msgidLine k :: msgstrLine v :: tail) m acc
      = loadGo (msgstrLine v :: tail) k acc := by
    simp only [loadGo, e1]
    rw [if_neg hlen1, if_pos hpre1, hdrop1]
  rw [step1]
  have e2 : stripChars (msgstrLine v) = msgstrLine v := stripChars_msgstrLine hv
  have hlen2 : ¬((msgstrLine v).length = 0) := by
    cases v <;> simp [msgstrLine, MSGSTR]
  have hpre2a : ¬(MSGID.isPrefixOf (msgstrLine v) = true) := by
    cases v with
    | none => decide
    | some t => simp [msgstrLine, msgid_not_prefixOf_msgstr]
  have hpre2b : MSGSTR.isPrefixOf (msgstrLine v) = true := by
    cases v with
    | none => decide
    | some t => exact isPrefixOf_append_right MSGSTR (' ' :: t)
  simp only [loadGo, e2]
  rw [if_neg hlen2, if_neg hpre2a, if_pos hpre2b]
  cases v with
  | none =>
    have : stripChars ((msgstrLine none).drop 6) = [] := by decide
    rw [this]
    simp
  | some t =>
    rw [stripChars_drop_msgstr (hv t rfl)]
    have : ¬(t.length = 0) := by
      intro h
      exact (hv t rfl).1 (List.length_eq_zero.mp h)
    rw [if_neg this]

theorem loadGo_saveChars : ∀ (d : AList) (m : List Char) (acc : AList),
    (∀ kv ∈ d, goodKey kv.1 ∧ ∀ t, kv.2 = some t → goodVal t) →
    (d.map Prod.fst).Nodup →
    (∀ kv ∈ d, alookup acc kv.1 = none) →
    loadGo (splitNl (saveChars d)) m acc = acc ++ d := by
  intro d
  induction d with
  | nil => intro m acc _ _ _; simp [saveChars, splitNl, splitNlAux, loadGo, stripChars, dropWs]
  | cons kv rest ih =>
    intro m acc hgood hnodup hdisj
    obtain ⟨k, v⟩ := kv
    have hkv := hgood (k, v) (List.mem_cons_self _ _)
    have hk : goodKey k := hkv.1
    have hv : ∀ t, v = some t → goodVal t := hkv.2
    have hnlm : '\n' ∉ msgidLine k := noNl_msgidLine hk
    have hnls : '\n' ∉ msgstrLine v := noNl_msgstrLine hv
    have hcrm : '\r' ∉ msgidLine k := noCr_msgidLine hk
    have hcrs : '\r' ∉ msgstrLine v := noCr_msgstrLine hv
    have hset : dictSet acc k v = acc ++ [(k, v)] :=
      dictSet_eq_append _ _ _ (hdisj (k, v) (List.mem_cons_self _ _))
    cases rest with
    | nil =>
      have hsave : saveChars [(k, v)] = msgidLine k ++ '\n' :: (msgstrLine v ++ ['\n']) := rfl
      rw [hsave, splitNl_append_newline _ hnlm hcrm, splitNl_append_newline _ hnls hcrs,
        loadGo_two_lines _ m acc hk hv, hset]
      simp [splitNl, splitNlAux, loadGo, stripChars, dropWs]
    | cons kv2 rest2 =>
      have hsave : saveChars ((k, v) :: kv2 :: rest2)
          = msgidLine k ++ '\n' :: (msgstrLine v ++ '\n' :: '\n' :: saveChars (kv2 :: rest2)) := by
        show entryChars k v ++ '\n' :: saveChars (kv2 :: rest2) = _
        simp [entryChars, List.append_assoc]
      rw [hsave, splitNl_append_newline _ hnlm hcrm, splitNl_append_newline _ hnls hcrs]
      have hsp : splitNl ('\n' :: saveChars (kv2 :: rest2))
          = [] :: splitNl (saveChars (kv2 :: rest2)) := by
        rw [splitNl, splitNlAux]
        simp [splitNl]
      rw [hsp, loadGo_two_lines _ m acc hk hv]
      have hskip : loadGo ([] :: splitNl (saveChars (kv2 :: rest2))) k (dictSet acc k v)
          = loadGo (splitNl (saveChars (kv2 :: rest2))) k (dictSet acc k v) := by
        simp [loadGo, stripChars, dropWs]
      rw [hskip, hset]
      have hnodup2 : ((kv2 :: rest2).map Prod.fst).Nodup := by
        simp only [List.map_cons, List.nodup_cons] at hnodup ⊢
        exact ⟨hnodup.2.1, hnodup.2.2⟩
      have hknot : k ∉ (kv2 :: rest2).map Prod.fst := by
        simp only [List.map_cons, List.nodup_cons] at hnodup
        exact hnodup.1
      have hdisj2 : ∀ kv ∈ kv2 :: rest2, alookup (acc ++ [(k, v)]) kv.1 = none := by
        intro kv hm
        rw [alookup_append]
        rw [hdisj kv (List.mem_cons_of_mem _ hm)]
        have hne : ¬(k = kv.1) := by
          intro heq
          exact hknot (heq ▸ List.mem_map_of_mem Prod.fst hm)
        simp [alookup, hne]
      rw [ih k (acc ++ [(k, v)]) (fun kv hm => hgood kv (List.mem_cons_of_mem _ hm))
        hnodup2 hdisj2]
      simp

theorem loadStrings_saveChars (d : AList)
    (hgood : ∀ kv ∈ d, goodKey kv.1 ∧ ∀ t, kv.2 = some t → goodVal t)
    (hnodup : (d.map Prod.fst).Nodup) :
    loadStrings (some (saveChars d)) = d := by
  have h := loadGo_saveChars d [] [] hgood hnodup (by intro kv _; simp [alookup])
  simpa [loadStrings] using h

theorem runPass_eq (fs : Option (List Char)) (pool : List (List Char)) :
    runPass fs pool = (saveChars (update (loadStrings fs) pool),
      fs != some (saveChars (update (loadStrings fs) pool))) := by
  simp [runPass, PoPieFile.init, isUpdated, getAfter]

theorem roundtrip_update (old : AList) (pool : List (List Char))
    (hpool : ∀ s ∈ pool, savableString s = true)
    (hvals : ∀ k t, alookup old k = some (some t) → goodVal t) :
    loadStrings (some (saveChars (update old pool))) = update old pool := by
  apply loadStrings_saveChars
  · intro kv hm
    rw [update_eq] at hm
    obtain ⟨s, hs, rfl⟩ := List.mem_map.mp hm
    exact ⟨savable_goodKey (hpool s (mem_firstOccur _ _ hs)),
      fun t ht => hvals s t (join_eq_some ht)⟩
  · have hcomp : (Prod.fst ∘ fun s : List Char => (s, Option.join (alookup old s)))
        = fun s => s := rfl
    rw [update_eq, List.map_map, hcomp, List.map_id']
    exact firstOccur_nodup pool

theorem update_update (old : AList) (pool : List (List Char)) :
    update (update old pool) pool = update old pool := by
  conv_lhs => rw [update_eq (update old pool) pool]
  conv_rhs => rw [update_eq old pool]
  apply List.map_congr_left
  intro s hs
  rw [update_eq old pool, alookup_map_self _ (firstOccur pool) s hs]
  rfl

/-!
## Theorems for the claims -/

/-- Claim C1. For every single-file syntax tree containing `_(ctx, "Text")`
in any of the listed syntactic positions — top-level expression, list or
tuple element, dict key or value, positional or keyword argument of
another call, operand of a binary operation, or nested one level inside
any of those — the analyzer yields exactly one extracted string, with text
`"Text"`, and no errors and no warnings. -/
theorem c1_single_extraction_everywhere (w₁ w₂ : Option PosKind) :
    analyzeModule "file.py" [wrapO w₁ (wrapO w₂ textCall)] =
      .ok ⟨[], [], [⟨"file.py", 1, 7, "Text"⟩]⟩ := by
  cases w₁ <;> cases w₂ <;>
    first
      | decide
      | (rename_i k; cases k <;> decide)
      | (rename_i k₁ k₂; cases k₁ <;> cases k₂ <;> decide)

/-- Claim C2 (code bug). A translation call that passes the arity,
format-placement, literal-argument and context checks but whose literal
starts with a space, ends with a space, or contains a newline does not
record the documented error: `_check_string` builds its error with
`Error.from_string`, which is defined nowhere in the code base, so the
analysis aborts with an `AttributeError` instead — contradicting the
repository's own tests (`test_disallow_space_before` and friends). -/
theorem c2_whitespace_rejection_crashes :
    analyzeModule "file.py" [strCall " Text"] = .error (.attributeError "from_string") ∧
    analyzeModule "file.py" [strCall "Text "] = .error (.attributeError "from_string") ∧
    analyzeModule "file.py" [strCall "Te\nxt"] = .error (.attributeError "from_string") := by
  decide

/-- Claim C3, counterexample. The claim's accepted context names are `ctx`,
`utx` and `gtx` (plus deprecated `tc`), and any other bare identifier is
claimed to produce exactly one error and no string.  `itx` is another bare
identifier by that list, yet the analyzer accepts `_(itx, "Text")` with no
diagnostic and extracts the string: `constants.py` defines
`CONTEXTS = ("ctx", "itx", "utx", "gtx")`. -/
theorem c3_itx_accepted_counterexample :
    analyzeModule "file.py" [ctxCall (.name ⟨1, 2⟩ "itx")] =
      .ok ⟨[], [], [⟨"file.py", 1, 10, "Text"⟩]⟩ ∧
    "itx" ∉ (["ctx", "utx", "gtx", "tc"] : List String) := by
  decide

/-- Claim C3 (amended). With the accepted set taken from `constants.py`
(`ctx`, `itx`, `utx`, `gtx`): every accepted bare name and every
`self.<accepted>` attribute passes without diagnostics; the bare name `tc`
is accepted with exactly one deprecation warning; any other bare name
yields exactly one error listing the accepted names and quoting the
offending name, and no string; an attribute access on a bare identifier
that is not the accepted `self.<accepted>` shape (wrong attribute, or a
receiver other than `self`) yields exactly one parallel error quoting the
offending attribute name, and no string.  (Attribute accesses whose
receiver is not a bare identifier crash the analyzer instead and are not
covered.) -/
theorem c3_context_argument_check (n v a b : String)
    (hn : n ∉ CONTEXTS ++ ["tc"])
    (hv : v ≠ "self")
    (hb : b ∉ CONTEXTS) :
    (∀ c ∈ CONTEXTS, analyzeModule "file.py" [ctxCall (.name ⟨1, 2⟩ c)] =
        .ok ⟨[], [], [⟨"file.py", 1, 10, "Text"⟩]⟩) ∧
    (∀ c ∈ CONTEXTS,
      analyzeModule "file.py" [ctxCall (.attr ⟨1, 2⟩ (.name ⟨1, 2⟩ "self") c)] =
        .ok ⟨[], [], [⟨"file.py", 1, 10, "Text"⟩]⟩) ∧
    analyzeModule "file.py" [ctxCall (.name ⟨1, 2⟩ "tc")] =
      .ok ⟨[], [⟨"file.py", 1, 0, tcDeprecatedMsg⟩], [⟨"file.py", 1, 10, "Text"⟩]⟩ ∧
    analyzeModule "file.py" [ctxCall (.name ⟨1, 2⟩ n)] =
      .ok ⟨[⟨"file.py", 1, 0, ctxNameMsg n⟩], [], []⟩ ∧
    analyzeModule "file.py" [ctxCall (.attr ⟨1, 2⟩ (.name ⟨1, 2⟩ "self") b)] =
      .ok ⟨[⟨"file.py", 1, 2, inheritedCtxMsg b⟩], [], []⟩ ∧
    analyzeModule "file.py" [ctxCall (.attr ⟨1, 2⟩ (.name ⟨1, 2⟩ v) a)] =
      .ok ⟨[⟨"file.py", 1, 2, inheritedCtxMsg a⟩], [], []⟩ := by
  refine ⟨?_, ?_, ?_, ?_, ?_, ?_⟩
  · intro c hc; fin_cases hc <;> decide
  · intro c hc; fin_cases hc <;> decide
  · decide
  · simp [analyzeModule, analyzeSt, visit, iterItem, iterateL, genericL, callChecks,
      isFormatArg, ctxCall, hn]
  · simp [analyzeModule, analyzeSt, visit, iterItem, iterateL, genericL, callChecks,
      isFormatArg, ctxCall, hb]
  · simp [analyzeModule, analyzeSt, visit, iterItem, iterateL, genericL, callChecks,
      isFormatArg, ctxCall, hv]

/-- Witness for C3's amended theorem at concrete inputs: `foo` as bare
name and as `self.foo`, `obj.attr` as a non-`self` receiver, `ctx` as an
accepted name — together with the fully rendered error message text. -/
theorem c3_context_argument_check_witness :
    analyzeModule "file.py" [ctxCall (.name ⟨1, 2⟩ "foo")] =
      .ok ⟨[⟨"file.py", 1, 0, ctxNameMsg "foo"⟩], [], []⟩ ∧
    analyzeModule "file.py" [ctxCall (.attr ⟨1, 2⟩ (.name ⟨1, 2⟩ "self") "foo")] =
      .ok ⟨[⟨"file.py", 1, 2, inheritedCtxMsg "foo"⟩], [], []⟩ ∧
    analyzeModule "file.py" [ctxCall (.attr ⟨1, 2⟩ (.name ⟨1, 2⟩ "obj") "attrname")] =
      .ok ⟨[⟨"file.py", 1, 2, inheritedCtxMsg "attrname"⟩], [], []⟩ ∧
    analyzeModule "file.py" [ctxCall (.name ⟨1, 2⟩ "ctx")] =
      .ok ⟨[], [], [⟨"file.py", 1, 10, "Text"⟩]⟩ ∧
    ctxNameMsg "foo" =
      "Translation context variable has to be one of \x27ctx\x27, \x27itx\x27, \x27utx\x27, \x27gtx\x27, got \x27foo\x27." := by
  obtain ⟨h1, _, _, h4, h5, h6⟩ :=
    c3_context_argument_check "foo" "obj" "attrname" "foo"
      (by decide) (by decide) (by decide)
  exact ⟨h4, h5, h6, h1 "ctx" (by decide), by decide⟩

/-- Claim C5. `_(ctx, "\x7btext\x7d".format(text="Text"))` yields zero strings and
exactly one error, whose message is the bad-`.format()`-placement message,
at the callee's position (line 1, column 0 here); the same `.format()`
call not enclosed in any `_()` call yields zero errors and zero
strings. -/
theorem c5_format_placement_misuse :
    analyzeModule "file.py" [formatInside] =
      .ok ⟨[⟨"file.py", 1, 0, badFormatMsg⟩], [], []⟩ ∧
    analyzeModule "file.py" [bareFormat] = .ok ⟨[], [], []⟩ := by
  decide

/-- Claim C6. `_(ctx, "Text \x7bs\x7d").format(s="s")` yields exactly one string,
whose text is the template `"Text \x7bs\x7d"` (not the formatted result), and no
errors and no warnings. -/
theorem c6_chained_format_extracts_template :
    analyzeModule "file.py" [chainedFormat] =
      .ok ⟨[], [], [⟨"file.py", 1, 7, "Text \x7bs\x7d"⟩]⟩ := by
  decide

/-- Claim C9. `_(ctx, "")` passes the arity, format-placement,
literal-argument and context checks, and then `_check_string` indexes
`string.text[0]` with no emptiness guard: the analysis aborts with an
`IndexError` instead of producing a string or a diagnostic. -/
theorem c9_empty_string_crashes :
    analyzeModule "file.py" [strCall ""] = .error .indexError := by
  decide

/-- Claim C4. For every prior catalog and every pool, `update` rebuilds the
catalog so that its entries are exactly the distinct pool strings in
order of first occurrence, each key carrying its previous value when it
was already a key (possibly an absent translation) and an absent
translation when it is new; prior keys not in the pool are dropped. -/
theorem c4_update_rebuilds_catalog (old : AList) (pool : List (List Char)) :
    update old pool =
      (firstOccur pool).map (fun s => (s, Option.join (alookup old s))) :=
  update_eq old pool

/-- Claim C8. `check_strings` records, in catalog order, exactly one error
for each entry whose translation is present and whose placeholder-name
set differs from its key's, with the message `Translation for
'<key>' contains bad variables: <value-side placeholders, comma-joined>.`;
entries with an absent translation are never checked. -/
theorem c8_check_strings_spec (d : AList) :
    checkStrings d = d.filterMap (fun kv =>
      match kv.2 with
      | none => none
      | some value =>
        if varSetEq (findVars kv.1) (findVars value) then none
        else some (checkErrMsg kv.1 (findVars value))) := by
  suffices h : ∀ errs : List (List Char),
      d.foldl (fun errs kv =>
        match kv.2 with
        | none => errs
        | some value =>
          if varSetEq (findVars kv.1) (findVars value) then errs
          else errs ++ [checkErrMsg kv.1 (findVars value)]) errs
      = errs ++ d.filterMap (fun kv =>
          match kv.2 with
          | none => none
          | some value =>
            if varSetEq (findVars kv.1) (findVars value) then none
            else some (checkErrMsg kv.1 (findVars value))) by
    simpa [checkStrings] using h []
  induction d with
  | nil => intro errs; simp
  | cons kv rest ih =>
    intro errs
    obtain ⟨k, v⟩ := kv
    cases v with
    | none => simpa using ih errs
    | some value =>
      by_cases hv : varSetEq (findVars k) (findVars value) = true
      · simpa [hv] using ih errs
      · simpa [hv, List.append_assoc] using ih (errs ++ [checkErrMsg k (findVars value)])

/-- Claim C10. `_get_after` is cached (`functools.lru_cache`): after the
first `is_updated()` call on a `PoPieFile` object, every further
`is_updated()` call returns the same answer (and leaves the object
unchanged) no matter what the file on disk holds by then. -/
theorem c10_is_updated_cached (p : PoPieFile) (fs fs2 : Option (List Char)) :
    isUpdated fs2 (isUpdated fs p).2 = isUpdated fs p := by
  cases hc : p.afterCache <;> simp [isUpdated, getAfter, hc]

/-- Claim C7, counterexample. A pool of valid extracted strings (each passes
`_check_string`) and a prior catalog for which the second scan-merge-save
cycle is not byte-identical: the saved line `msgid a\r` reloads as
`msgid a` (its `\r\n` ending is a single universal-newline break), so the
key `"a\r"` collides with the key `"a"`, clobbers its stored translation,
and the second pass saves different bytes — `is_updated()` reports
true. -/
theorem c7_idempotence_counterexample :
    (∀ s ∈ crPool, validString s = true) ∧
    (runPass (some (runPass (some crPrior) crPool).1) crPool).2 = true := by
  decide

/-- Claim C7 (amended). For every pool of valid extracted strings that the
loader also reads back unchanged — no carriage return anywhere (inside a
line, `\r` is a universal-newline break on reload) and a last character
outside the whitespace set `strip()` removes (validity itself only
excludes space and tab at the ends) — and every initial catalog file,
running the load → update(pool) → save cycle twice with the same pool
leaves the persisted file byte-identical after the second run, and
`is_updated()` reports false on the second pass. -/
theorem c7_cycle_idempotent (fs0 : Option (List Char)) (pool : List (List Char))
    (hpool : ∀ s ∈ pool, savableString s = true) :
    (runPass (some (runPass fs0 pool).1) pool).1 = (runPass fs0 pool).1 ∧
    (runPass (some (runPass fs0 pool).1) pool).2 = false := by
  have hround := roundtrip_update (loadStrings fs0) pool hpool (loadStrings_values_good fs0)
  have h1 : (runPass fs0 pool).1 = saveChars (update (loadStrings fs0) pool) := by
    rw [runPass_eq]
  constructor
  · rw [h1, runPass_eq, hround, update_update, ← h1]
  · rw [h1, runPass_eq, hround, update_update]
    simp

/-- Witness for C7’s amended theorem: a prior catalog holding one
translation and the one-string pool `["Hi"]`. -/
theorem c7_cycle_idempotent_witness :
    (∀ s ∈ ([['H', 'i']] : List (List Char)), savableString s = true) ∧
    (runPass (some (runPass (some "msgid Hi\nmsgstr Ahoj".data) [['H', 'i']]).1) [['H', 'i']]).1
      = (runPass (some "msgid Hi\nmsgstr Ahoj".data) [['H', 'i']]).1 ∧
    (runPass (some (runPass (some "msgid Hi\nmsgstr Ahoj".data) [['H', 'i']]).1) [['H', 'i']]).2
      = false := by
  have h := c7_cycle_idempotent (some "msgid Hi\nmsgstr Ahoj".data) [['H', 'i']] (by decide)
  exact ⟨by decide, h.1, h.2⟩

end Popie
